import Mathlib

/-!
Verification of `grouper/permissions.py`: a shallow embedding in Lean 4 of the
permission ownership-resolution algorithms and the permission-request workflow
state machine, together with theorems settling the specification claims.

Conventions of the embedding:
* Pure Python functions become Lean functions over the same data.
* The SQLAlchemy session becomes an explicit pair of stores (`db` = committed
  rows, `mem` = the session's in-memory view including uncommitted adds);
  `commit` publishes `mem` to `db` (failing with an integrity error when the
  unique constraint on concrete grants is violated) and `rollback` resets
  `mem` to `db`.
* Fallible operations return the final session state together with an
  `Option PermErr` / `Except PermErr` result, mirroring Python exceptions:
  on an error the returned session is the session state at the raise point.
* Collaborators that live outside `permissions.py` (glob matching from
  `grouper.util`, `assert_controllers_are_auditors` from `grouper.audit`,
  group membership expansion, plugin owner contributions, email dispatch)
  are modelled from the spec as oracles in an explicit `Env`.
-/

/-- Modelled from the spec: `grouper.util.matches_glob` (source file not under
`src/`). §4.1 Glob Matcher: characters other than `*` match literally, `*`
matches any run of zero or more characters, matching is case-sensitive and
total. `globMatch pat cand` works on exploded character lists; the `*` case
tries every suffix of the candidate. -/
def globMatch : List Char → List Char → Bool
  | [], cs => cs.isEmpty
  | p :: ps, cs =>
    if p = '*' then cs.tails.any (fun t => globMatch ps t)
    else
      match cs with
      | [] => false
      | c :: cs' => p == c && globMatch ps cs'

/-- Modelled from the spec: `grouper.util.matches_glob` on strings. -/
def matches_glob (pattern s : String) : Bool :=
  globMatch pattern.toList s.toList

/-- Modelled from the spec: the `PERMISSION_ADMIN` marker name from
`grouper.constants` (source file not under `src/`); the concrete string is
irrelevant, only that it is a fixed distinguished permission name. -/
def PERMISSION_ADMIN : String := "grouper.permission.admin"

/-- Modelled from the spec: the `PERMISSION_GRANT` marker name from
`grouper.constants` (source file not under `src/`). -/
def PERMISSION_GRANT : String := "grouper.permission.grant"

/-- Modelled from the spec: `ARGUMENT_VALIDATION` from `grouper.constants`
(source file not under `src/`): §3 "Argument must match a
restricted-character-set grammar (letters, digits, `-_.*` and similar)". -/
def validArgument (argument : String) : Bool :=
  argument.toList.all fun c =>
    c.isAlphanum || c = '-' || c = '_' || c = '.' || c = '*' || c = '/' || c = ':'

/-- Lexicographic code-point comparison of character lists: the order Python
uses to compare strings. (Lean's built-in `String` order is not used because
its `String.ltb` implementation does not reduce in the kernel.) -/
def charListLe : List Char → List Char → Bool
  | [], _ => true
  | _ :: _, [] => false
  | a :: as, b :: bs =>
    if a.toNat < b.toNat then true
    else if b.toNat < a.toNat then false
    else charListLe as bs

/-- Python's `<=` on strings: lexicographic by code point. -/
def strLeB (a b : String) : Bool :=
  charListLe a.toList b.toList

/-- Python's `s.split("/", 1)`: split on the first `/` only. Returns the part
before the first slash and, when a slash exists, the remainder after it. -/
def splitOnFirstSlash (s : String) : String × Option String :=
  match s.toList.findIdx? (· = '/') with
  | none => (s, none)
  | some i => (String.mk (s.toList.take i), some (String.mk (s.toList.drop (i + 1))))

namespace Grouper

/-- `grouper.models.permission.Permission` row: the fields the algorithms use. -/
structure Permission where
  id : Nat
  name : String
  description : String
  enabled : Bool
  audited : Bool
  deriving DecidableEq, Repr

/-- `grouper.models.group.Group` row: the fields the algorithms use. -/
structure Group where
  id : Nat
  name : String
  enabled : Bool
  emailAddress : Option String
  deriving DecidableEq, Repr

/-- The `Grant` namedtuple of `permissions.py`: `(name, argument)`. -/
structure Grant where
  name : String
  argument : String
  deriving DecidableEq, Repr

/-- The Python dict comprehension `{permission.name: permission for ...}` as a
list of entries: keys in order of first occurrence of each name, each key
mapped to the *last* permission in the list carrying that name. -/
def dictByName (l : List Permission) : List Permission :=
  let names := l.foldl (fun acc p => if p.name ∈ acc then acc else acc ++ [p.name]) []
  names.filterMap fun n => l.reverse.find? (fun p => p.name == n)

/-- `filter_grantable_permissions` (permissions.py lines 279-309), with the
database catalog passed explicitly (the Python caller builds
`all_permissions` as the name-keyed dict of `get_all_permissions`; the model
takes the dict's entry list). Each grant's argument encodes
`<permission-glob>[/<argument-pattern>]` (argument-pattern defaults to `*`);
every catalog permission whose name matches the glob contributes a pair. The
Python function asserts `grant.name == PERMISSION_GRANT` for every grant; the
model leaves the assertion to the callers, all of which pre-filter by that
name. `grantExpansion` is the `result` list accumulated by the loop;
`filter_grantable_permissions` then sorts it with key `x[0].name + x[1]`
(string concatenation), by Python's stable sort. -/
def grantExpansion (grants : List Grant)
    (all_permissions : List Permission) : List (Permission × String) :=
  grants.foldr
    (fun grant acc =>
      let grantable := splitOnFirstSlash grant.argument
      ((all_permissions.filter fun p => matches_glob grantable.1 p.name).map
        fun p => (p, grantable.2.getD "*")) ++ acc)
    []

/-- The sort applied to `result` on the last line of
`filter_grantable_permissions`. -/
def filter_grantable_permissions (grants : List Grant)
    (all_permissions : List Permission) : List (Permission × String) :=
  (grantExpansion grants all_permissions).insertionSort
    fun x y => strLeB (x.1.name ++ x.2) (y.1.name ++ y.2) = true

/-- Python's `sorted(set(l))` for a list of strings: deduplicate, then sort
ascending. -/
def sortedSet (l : List String) : List String :=
  l.dedup.insertionSort fun a b => strLeB a b = true

/-- The inner `_reduce_args` of `get_grantable_permissions` (permissions.py
lines 391-404): collapse the argument patterns owned for one permission.
`non_wildcard_args` is the Python list of booleans `[a != "*" for a in args]`;
the first branch additionally requires the restricted-permission list to be
truthy (non-empty). -/
def reduce_args (restricted_ownership_permissions : List String)
    (perm_name : String) (args : List String) : List String :=
  let non_wildcard_args := args.map fun a => a != "*"
  if restricted_ownership_permissions ≠ [] ∧
      perm_name ∈ restricted_ownership_permissions ∧
      non_wildcard_args.any id then
    sortedSet (args.filter fun a => a != "*")
  else if non_wildcard_args.all id then
    sortedSet args
  else
    ["*"]

/-- `grouper.models.user.User` row: the fields the workflow uses. -/
structure UserRow where
  id : Nat
  name : String
  deriving DecidableEq, Repr

/-- `grouper.models.permission_map.PermissionMap` row: a concrete grant of
(permission, argument) to a group. The table carries a unique constraint on
the (group, permission, argument) triple (§3 invariant; `grant_permission`'s
docstring: granting fails if the pair is already granted to the group). -/
structure PermMapRow where
  groupId : Nat
  permissionId : Nat
  argument : String
  deriving DecidableEq, Repr

/-- `grouper.models.permission_request.PermissionRequest` row. -/
structure Request where
  id : Nat
  requesterId : Nat
  groupId : Nat
  permissionId : Nat
  argument : String
  status : String
  requestedAt : Nat
  deriving DecidableEq, Repr

/-- `grouper.models.permission_request_status_change.PermissionRequestStatusChange`
row. `fromStatus` is `none` for the initial `pending` row written at request
creation. -/
structure StatusChange where
  id : Nat
  requestId : Nat
  userId : Nat
  fromStatus : Option String
  toStatus : String
  changeAt : Nat
  deriving DecidableEq, Repr

/-- The constant `OBJ_TYPES_IDX.index("PermissionRequestStatusChange")` from
`grouper.models.base.constants` (not under `src/`); the concrete value is
irrelevant, only that comments on status changes are tagged with it. -/
def objTypeStatusChange : Nat := 3

/-- `grouper.models.comment.Comment` row attached to a status change
(`obj_pk` = status change id). -/
structure CommentRow where
  objType : Nat
  objPk : Nat
  userId : Nat
  comment : String
  createdOn : Nat
  deriving DecidableEq, Repr

/-- An `AuditLog.log` entry (`grouper.models.audit_log`, not under `src/`;
§6 AuditLog: `record(actor, action, targets...)`). -/
structure AuditEntry where
  actorId : Nat
  action : String
  description : String
  onGroupId : Option Nat
  onUserId : Option Nat
  onPermissionId : Option Nat
  deriving DecidableEq, Repr

/-- A dispatched notification (`grouper.email_util.send_email`, not under
`src/`; §6 Notifier). The model records the deduplicated recipient list and
the template name; the rendered context is not observed by any claim. -/
structure EmailMsg where
  recipients : List String
  template : String
  deriving DecidableEq, Repr

/-- The exceptions the workflow can raise (permissions.py classes
`RequestAlreadyExists`, `NoOwnersAvailable`, `RequestAlreadyGranted`;
`grouper.audit.UserNotAuditor`; Python `AssertionError` from
`grant_permission`'s argument assertion; SQLAlchemy `IntegrityError`;
`missingRow` models the crash Python would suffer dereferencing a foreign-key
relationship whose target row does not exist). -/
inductive PermErr where
  | requestAlreadyGranted
  | requestAlreadyExists
  | noOwnersAvailable
  | userNotAuditor
  | assertionError
  | integrityError
  | missingRow
  deriving DecidableEq, Repr

/-- The relational store: one list of rows per table, plus the `updates`
counter and the id sequence used for newly flushed rows. -/
structure Store where
  permissions : List Permission
  groups : List Group
  users : List UserRow
  permissionMaps : List PermMapRow
  requests : List Request
  statusChanges : List StatusChange
  comments : List CommentRow
  auditEntries : List AuditEntry
  updatesCounter : Nat
  nextId : Nat
  deriving DecidableEq, Repr

/-- The unique-constraint key of a `PermissionMap` row. -/
def grantTriples (l : List PermMapRow) : List (Nat × Nat × String) :=
  l.map fun r => (r.groupId, r.permissionId, r.argument)

/-- The SQLAlchemy session: `db` is the committed database, `mem` the
session's working view (committed rows plus uncommitted adds/updates), and
`sent` the notifications dispatched so far (an external effect, outside the
transaction). -/
structure Session where
  db : Store
  mem : Store
  sent : List EmailMsg
  deriving DecidableEq, Repr

/-- `session.commit()`: publishes the working view, or fails with an
`IntegrityError` when the unique constraint on concrete grants is violated,
leaving the uncommitted rows pending (the caller must roll back). -/
def Session.tryCommit (s : Session) : Session × Option PermErr :=
  if (grantTriples s.mem.permissionMaps).Nodup then ({ s with db := s.mem }, none)
  else (s, some .integrityError)

/-- `session.rollback()`: discard uncommitted changes. -/
def Session.rollback (s : Session) : Session :=
  { s with mem := s.db }

/-- Modelled from the spec: the collaborators of `permissions.py` whose code
is not under `src/`, passed as oracles (§6 External Interfaces):
* `myPermissions gid` — `Group.my_permissions()` restricted to the fields the
  code reads: the (name, argument) pairs of the group's currently-effective
  permissions;
* `auditorsOk gid` — whether `grouper.audit.assert_controllers_are_auditors`
  succeeds for the group (§6 AuditorPolicy: fails when any controller of the
  group is not a qualified auditor);
* `groupsByUser uid` — the group ids from `get_groups_by_user`;
* `groupMembers gid` — the direct user members of a group, as used for
  notification fallback when the group has no email address;
* `plugins` — the owner maps contributed by
  `get_plugin_proxy().get_owner_by_arg_by_perm`, each given as a list of
  (permission name, argument, owner) entries;
* `now` — `datetime.utcnow()` as an abstract timestamp. -/
structure Env where
  myPermissions : Nat → List (String × String)
  auditorsOk : Nat → Bool
  groupsByUser : Nat → List Nat
  groupMembers : Nat → List String
  plugins : List (List (String × String × Group))
  now : Nat

/-- ORM relationship lookup: the permission row with the given id. -/
def lookupPermission (st : Store) (pid : Nat) : Option Permission :=
  st.permissions.find? fun p => p.id == pid

/-- ORM relationship lookup: the group row with the given id. -/
def lookupGroup (st : Store) (gid : Nat) : Option Group :=
  st.groups.find? fun g => g.id == gid

/-- ORM relationship lookup: the name of the user with the given id (empty
when absent; the workflow only reads `request.requester.name`). -/
def lookupUserName (st : Store) (uid : Nat) : String :=
  ((st.users.find? fun u => u.id == uid).map (·.name)).getD ""

/-- Flush-time insert of a `PermissionRequest` row; consumes an id. -/
def Session.addRequest (s : Session) (r : Request) : Session :=
  { s with mem := { s.mem with requests := s.mem.requests ++ [r],
                               nextId := s.mem.nextId + 1 } }

/-- Flush-time insert of a status-change row; consumes an id. -/
def Session.addStatusChange (s : Session) (r : StatusChange) : Session :=
  { s with mem := { s.mem with statusChanges := s.mem.statusChanges ++ [r],
                               nextId := s.mem.nextId + 1 } }

/-- Insert of a comment row (its own id is never read). -/
def Session.addComment (s : Session) (c : CommentRow) : Session :=
  { s with mem := { s.mem with comments := s.mem.comments ++ [c] } }

/-- Insert of a `PermissionMap` row. -/
def Session.addGrantRow (s : Session) (r : PermMapRow) : Session :=
  { s with mem := { s.mem with permissionMaps := s.mem.permissionMaps ++ [r] } }

/-- Insert of an audit-log entry. -/
def Session.addAudit (s : Session) (a : AuditEntry) : Session :=
  { s with mem := { s.mem with auditEntries := s.mem.auditEntries ++ [a] } }

/-- `Counter.incr(session, "updates")`. -/
def Session.incrUpdates (s : Session) : Session :=
  { s with mem := { s.mem with updatesCounter := s.mem.updatesCounter + 1 } }

/-- `get_all_permissions` (permissions.py lines 84-100): enabled permissions
(or all when `include_disabled`), ordered by name ascending. -/
def get_all_permissions (st : Store) (include_disabled : Bool) : List Permission :=
  let l := if include_disabled then st.permissions else st.permissions.filter (·.enabled)
  l.insertionSort fun a b => strLeB a.name b.name = true

/-- The key type of the owner map built by
`get_owners_by_grantable_permission`: either a permission name or the
`GLOBAL_OWNERS` sentinel singleton. -/
inductive OwnerKey where
  | perm (name : String)
  | globalOwners
  deriving DecidableEq, Repr

/-- One append performed on the owner map
`owners_by_arg_by_perm[key][arg].append(owner)`; the defaultdict-of-
defaultdict-of-list is represented by the list of appends in program order. -/
structure OwnerEntry where
  key : OwnerKey
  arg : String
  owner : Group
  deriving DecidableEq, Repr

/-- The join `session.query(Permission.name, PermissionMap.argument, Group)`
over `PermissionMap` (permissions.py lines 333-337): note that neither the
permission's nor the group's `enabled` flag is filtered here. -/
structure GroupGrantRow where
  permName : String
  argument : String
  group : Group
  deriving DecidableEq, Repr

/-- The `all_group_permissions` join of `get_owners_by_grantable_permission`. -/
def allGroupPermissions (st : Store) : List GroupGrantRow :=
  st.permissionMaps.foldr
    (fun pm acc =>
      match lookupPermission st pm.permissionId, lookupGroup st pm.groupId with
      | some p, some g => ⟨p.name, pm.argument, g⟩ :: acc
      | _, _ => acc)
    []

/-- `get_owners_by_grantable_permission` (permissions.py lines 312-367).
For every enabled group: a group holding the `PERMISSION_ADMIN` marker owns
`("*", p)` for every enabled permission (and is recorded under the
`GLOBAL_OWNERS` sentinel when `separate_global`); otherwise the group's
`PERMISSION_GRANT` delegations are expanded by
`filter_grantable_permissions`. Plugin results are appended afterwards. -/
def get_owners_by_grantable_permission (env : Env) (st : Store)
    (separate_global : Bool) : List OwnerEntry :=
  let all_permissions := dictByName (get_all_permissions st false)
  let all_groups := st.groups.filter (·.enabled)
  let rows := allGroupPermissions st
  let base := all_groups.foldr
    (fun group acc =>
      let group_permissions := rows.filter fun r => r.group.id == group.id
      (if group_permissions.any (fun g => g.permName == PERMISSION_ADMIN) then
        (all_permissions.map fun p => OwnerEntry.mk (.perm p.name) "*" group) ++
          (if separate_global then [OwnerEntry.mk .globalOwners "*" group] else [])
      else
        let grants := group_permissions.filter fun gp => gp.permName == PERMISSION_GRANT
        (filter_grantable_permissions (grants.map fun r => ⟨r.permName, r.argument⟩)
            all_permissions).map
          fun pa => OwnerEntry.mk (.perm pa.1.name) pa.2 group) ++ acc)
    []
  base ++ env.plugins.foldr
    (fun res acc => (res.map fun e => OwnerEntry.mk (.perm e.1) e.2.1 e.2.2) ++ acc) []

/-- The guard of the permission-admin special case in
`get_owners_by_grantable_permission` (line 347): the group has some grant row
whose permission name is the `PERMISSION_ADMIN` marker (note: the join does
not filter on the marker permission's own enabled flag). -/
def holdsPermissionAdmin (st : Store) (g : Group) : Bool :=
  ((allGroupPermissions st).filter fun r => r.group.id == g.id).any
    fun r => r.permName == PERMISSION_ADMIN

/-- The groups recorded in an owner map under a given key and argument. -/
def ownerMapOwners (entries : List OwnerEntry) (k : OwnerKey) (a : String) :
    List Group :=
  (entries.filter fun e => decide (e.key = k) && decide (e.arg = a)).map (·.owner)

/-- The keys present in an owner map. -/
def ownerMapKeys (entries : List OwnerEntry) : List OwnerKey :=
  entries.map (·.key)

/-- `get_owner_arg_list` (permissions.py lines 409-436): the (group, granted
argument pattern) pairs responsible for a concrete (permission, argument)
request: every entry of the owner map under that permission name whose
argument pattern glob-matches the concrete argument. -/
def get_owner_arg_list (entries : List OwnerEntry) (permName argument : String) :
    List (Group × String) :=
  (entries.filter fun e =>
      decide (e.key = .perm permName) && matches_glob e.arg argument).map
    fun e => (e.owner, e.arg)

/-- `grant_permission` (permissions.py lines 137-159): assert the argument
grammar, insert the `PermissionMap` row, bump the `updates` counter, commit.
The commit raises `IntegrityError` when the (group, permission, argument)
grant already exists. -/
def grant_permission (s : Session) (group_id permission_id : Nat)
    (argument : String) : Session × Option PermErr :=
  if !validArgument argument then (s, some .assertionError)
  else
    (((s.addGrantRow ⟨group_id, permission_id, argument⟩).incrUpdates).tryCommit)

/-- `create_request` (permissions.py lines 465-583). Validation in order:
already-granted check against `group.my_permissions()`, duplicate-pending
check, owner resolution (with `separate_global=True`), auditor check for
audited permissions; only then are the request, initial status-change and
comment rows added (never committed here — the caller owns the transaction)
and the notification dispatched to the preferred owner tier (non-wildcard
owners first, then non-global owners, else all matched owners). -/
def create_request (env : Env) (s : Session) (user : UserRow) (group : Group)
    (permission : Permission) (argument : String) (reason : String) :
    Session × Except PermErr Request :=
  if (env.myPermissions group.id).any
      (fun pr => pr.1 == permission.name && pr.2 == argument) then
    (s, .error .requestAlreadyGranted)
  else if 0 < (s.mem.requests.filter fun r =>
      r.groupId == group.id && r.permissionId == permission.id &&
      r.argument == argument && r.status == "pending").length then
    (s, .error .requestAlreadyExists)
  else
    let owners_by_arg_by_perm := get_owners_by_grantable_permission env s.mem true
    let owner_arg_list := get_owner_arg_list owners_by_arg_by_perm permission.name argument
    if owner_arg_list = [] then (s, .error .noOwnersAvailable)
    else if permission.audited ∧ !env.auditorsOk group.id then
      (s, .error .userNotAuditor)
    else
      let now := env.now
      let rid := s.mem.nextId
      let request : Request := ⟨rid, user.id, group.id, permission.id, argument, "pending", now⟩
      let s1 := s.addRequest request
      let scId := s1.mem.nextId
      let s2 := s1.addStatusChange ⟨scId, rid, user.id, none, "pending", now⟩
      let s3 := s2.addComment ⟨objTypeStatusChange, scId, user.id, reason, now⟩
      let global_owners := ownerMapOwners owners_by_arg_by_perm .globalOwners "*"
      let non_wildcard_owners := owner_arg_list.filter fun oa => oa.2 ≠ "*"
      let non_global_owners := owner_arg_list.filter fun oa => oa.1 ∉ global_owners
      let mailto_owner_arg_list :=
        if non_wildcard_owners ≠ [] then non_wildcard_owners
        else if non_global_owners ≠ [] then non_global_owners
        else owner_arg_list
      let mail_to := mailto_owner_arg_list.foldr
        (fun oa acc =>
          (match oa.1.emailAddress with
           | some e => [e]
           | none => env.groupMembers oa.1.id) ++ acc)
        []
      let s4 := { s3 with
        sent := s3.sent ++ [⟨mail_to.dedup, "pending_permission_request"⟩] }
      (s4, .ok request)

/-- `update_request` (permissions.py lines 728-828). Same-status is a no-op;
transitioning to `actioned` on an audited permission re-checks the auditor
invariant before any mutation; then the status-change row, comment row and
status update are added and committed; for `actioned` the concrete grant is
applied, an `IntegrityError` there being swallowed by rolling back only the
uncommitted grant row; finally the audit-log entry is committed and the
requester is notified. -/
def update_request (env : Env) (s : Session) (request : Request)
    (user : UserRow) (new_status : String) (comment : String) :
    Session × Option PermErr :=
  if request.status = new_status then (s, none)
  else
    match lookupPermission s.mem request.permissionId,
          lookupGroup s.mem request.groupId with
    | some perm, some group =>
      if new_status = "actioned" ∧ perm.audited ∧ !env.auditorsOk group.id then
        (s, some .userNotAuditor)
      else
        let now := env.now
        let scId := s.mem.nextId
        let s1 := s.addStatusChange
          ⟨scId, request.id, user.id, some request.status, new_status, now⟩
        let s2 := s1.addComment ⟨objTypeStatusChange, scId, user.id, comment, now⟩
        let s3 := { s2 with mem := { s2.mem with
          requests := s2.mem.requests.map fun (r : Request) =>
            if r.id = request.id then { r with status := new_status } else r } }
        match s3.tryCommit with
        | (s4, some e) => (s4, some e)
        | (s4, none) =>
          let afterGrant :=
            if new_status = "actioned" then
              match grant_permission s4 group.id perm.id request.argument with
              | (s5, some .integrityError) => (s5.rollback, none)
              | other => other
            else (s4, none)
          match afterGrant with
          | (s5, some e) => (s5, some e)
          | (s5, none) =>
            let s6 := s5.addAudit ⟨user.id, "update_perm_request",
              "updated permission request to status: " ++ new_status,
              some request.groupId, some request.requesterId, some perm.id⟩
            match s6.tryCommit with
            | (s7, some e) => (s7, some e)
            | (s7, none) =>
              ({ s7 with sent := s7.sent ++
                  [EmailMsg.mk [lookupUserName s7.mem request.requesterId]
                    (if new_status = "actioned" then "permission_request_actioned"
                     else "permission_request_cancelled")] }, none)
    | _, _ => (s, some .missingRow)

/-- The `request.permission` relationship as read by `can_approve_request`
and `get_requests`; a dummy permission stands for the crash Python would
suffer when the row is missing (never exercised by the theorems, which carry
well-formedness hypotheses). -/
def requestPermission (st : Store) (r : Request) : Permission :=
  (lookupPermission st r.permissionId).getD ⟨0, "", "", false, false⟩

/-- `can_approve_request` (permissions.py lines 604-611): the ids of the
approver's groups that own the request's (permission, argument); the Python
function returns this intersection as a set whose truthiness decides
approval eligibility. -/
def can_approve_request (env : Env) (st : Store) (request : Request)
    (owner : UserRow) (group_ids : Option (List Nat))
    (owners_by_arg_by_perm : Option (List OwnerEntry)) : List Nat :=
  let entries := match owners_by_arg_by_perm with
    | some e => e
    | none => get_owners_by_grantable_permission env st false
  let owner_arg_list := get_owner_arg_list entries
    (requestPermission st request).name request.argument
  let gids := match group_ids with
    | some g => g
    | none => env.groupsByUser owner.id
  gids.filter fun gid => (owner_arg_list.map fun oa => oa.1.id).contains gid

/-- Python's `l[offset:limit]` for non-negative bounds: the elements with
indices in `[offset, limit)`. -/
def pySlice (offset limit : Nat) (l : List α) : List α :=
  (l.take limit).drop offset

/-- The filtered, date-sorted request list of `get_requests` before
pagination: filter by status (Python truthiness: `None` and the empty string
disable the filter) and requester, order by `requested_at` descending, and
keep only requests the owner can action when an owner filter is given. -/
def matchingRequests (env : Env) (st : Store) (status : Option String)
    (owner : Option UserRow) (requester : Option UserRow)
    (owners_by_arg_by_perm : Option (List OwnerEntry)) : List Request :=
  let q := st.requests
  let q := match status with
    | none => q
    | some v => if v = "" then q else q.filter fun r => r.status == v
  let q := match requester with
    | none => q
    | some u => q.filter fun r => r.requesterId == u.id
  let all_requests := q.insertionSort fun a b => b.requestedAt ≤ a.requestedAt
  match owner with
  | none => all_requests
  | some o =>
    let entries := match owners_by_arg_by_perm with
      | some e => e
      | none => get_owners_by_grantable_permission env st false
    let group_ids := env.groupsByUser o.id
    all_requests.filter fun r =>
      !(can_approve_request env st r o (some group_ids) (some entries)).isEmpty

/-- The `Requests` namedtuple of permissions.py: the page of requests plus
the status-change rows of those requests and the comments attached to those
status changes (the Python code groups them into dicts keyed by request id
and status-change id; the model returns the underlying row lists). -/
structure RequestsView where
  requests : List Request
  statusChanges : List StatusChange
  comments : List CommentRow
  deriving DecidableEq, Repr

/-- `get_requests` (permissions.py lines 614-692): the filtered, date-sorted
list is paginated with the Python slice `requests[offset:limit]`, while
`total` is taken before pagination. -/
def get_requests (env : Env) (st : Store) (status : Option String)
    (limit offset : Nat) (owner : Option UserRow) (requester : Option UserRow)
    (owners_by_arg_by_perm : Option (List OwnerEntry)) : RequestsView × Nat :=
  let requests := matchingRequests env st status owner requester owners_by_arg_by_perm
  let total := requests.length
  let page := pySlice offset limit requests
  let status_changes := st.statusChanges.filter fun sc =>
    (page.map (·.id)).contains sc.requestId
  let comments := st.comments.filter fun c =>
    c.objType == objTypeStatusChange && (status_changes.map (·.id)).contains c.objPk
  (⟨page, status_changes, comments⟩, total)

/-- The status of the request row with the given id (the view a later
`get_request_by_id` would deliver). -/
def requestStatus (st : Store) (rid : Nat) : Option String :=
  (st.requests.find? fun r => r.id == rid).map (·.status)

/-- The Permission-like items of `permission_intersection`: the code only
reads `name` and `argument` (the docstring's "Permission" lists are in
practice `Grant`-shaped values). -/
structure PermItem where
  name : String
  argument : String
  deriving DecidableEq, Repr

/-- The argument keys of `permission_list_to_dict perms` under a name: the
arguments of the items carrying that name. -/
def bKeys (B : List PermItem) (n : String) : List String :=
  (B.filter fun p => p.name == n).map (·.argument)

/-- What one iteration of the `permission_intersection` loop adds to `ret`
for the item `perm` of `perms_a` (permissions.py lines 864-885); the branch
order mirrors the code: exact match, unargumented A item, wildcard in B,
unargumented grant in B (adding B's canonical item), wildcard A item (adding
every B item of that name). -/
def intersectStep (B : List PermItem) (perm : PermItem) : Finset PermItem :=
  if ¬ (B.any fun p => p.name == perm.name) then ∅
  else if perm.argument ∈ bKeys B perm.name then {perm}
  else if perm.argument = "" then {perm}
  else if "*" ∈ bKeys B perm.name then {perm}
  else if "" ∈ bKeys B perm.name then {⟨perm.name, ""⟩}
  else if perm.argument = "*" then (B.filter fun p => p.name == perm.name).toFinset
  else ∅

/-- `permission_intersection` (permissions.py lines 850-886): the union over
`perms_a` of each item's contribution (the loop only ever adds to `ret`). -/
def permission_intersection (perms_a perms_b : List PermItem) : Finset PermItem :=
  perms_a.foldl (fun ret perm => ret ∪ intersectStep perms_b perm) ∅

/-! ### Concrete fixtures used by the witness theorems -/

/-- A concrete environment: no effective permissions, no auditors, no group
memberships, no plugins. -/
def witEnv : Env :=
  { myPermissions := fun _ => []
    auditorsOk := fun _ => false
    groupsByUser := fun _ => []
    groupMembers := fun _ => ["alice@x"]
    plugins := []
    now := 100 }

/-- `witEnv` but the group already effectively holds `(perm.one, arg)`. -/
def witEnvGranted : Env :=
  { witEnv with myPermissions := fun _ => [("perm.one", "arg")] }

def witPerm : Permission := ⟨1, "perm.one", "", true, false⟩

def witPermAudited : Permission := ⟨1, "perm.one", "", true, true⟩

def witGroup : Group := ⟨1, "grp", true, some "grp@x"⟩

def witUser : UserRow := ⟨7, "bob"⟩

def witReqPending : Request := ⟨10, 7, 1, 1, "arg", "pending", 50⟩

def witReqCancelled : Request := ⟨10, 7, 1, 1, "arg", "cancelled", 50⟩

/-- A store with one enabled unaudited permission, one enabled group, one
user and one pending request for `(grp, perm.one, arg)`. -/
def witStore : Store :=
  { permissions := [witPerm]
    groups := [witGroup]
    users := [witUser]
    permissionMaps := []
    requests := [witReqPending]
    statusChanges := []
    comments := []
    auditEntries := []
    updatesCounter := 0
    nextId := 20 }

/-- `witStore` with the request already in the `cancelled` state. -/
def witStoreCancelled : Store := { witStore with requests := [witReqCancelled] }

/-- `witStore` where the concrete grant `(grp, perm.one, arg)` already
exists. -/
def witStoreConflict : Store :=
  { witStore with permissionMaps := [⟨1, 1, "arg"⟩] }

/-- `witStore` with the permission audited. -/
def witStoreAudited : Store := { witStore with permissions := [witPermAudited] }

/-- A store for the ownership claims: an enabled permission `perm.x`, a
disabled permission `perm.dead`, the admin marker permission, and a group
holding the admin marker. -/
def witStoreAdmin : Store :=
  { permissions := [⟨1, "perm.x", "", true, false⟩,
      ⟨2, "perm.dead", "", false, false⟩, ⟨3, PERMISSION_ADMIN, "", true, false⟩]
    groups := [⟨1, "admins", true, none⟩]
    users := []
    permissionMaps := [⟨1, 3, ""⟩]
    requests := []
    statusChanges := []
    comments := []
    auditEntries := []
    updatesCounter := 0
    nextId := 1 }

/-- A clean session over a store. -/
def cleanSession (st : Store) : Session := ⟨st, st, []⟩

/-! ### Helper lemmas -/

theorem mem_foldr_append {α β : Type} (f : α → List β) (l : List α)
    (init : List β) (x : β) :
    x ∈ l.foldr (fun a acc => f a ++ acc) init ↔ x ∈ init ∨ ∃ a ∈ l, x ∈ f a := by
  induction l with
  | nil => simp
  | cons a l ih => simp [ih]; tauto

theorem mem_grantExpansion {grants : List Grant} {cat : List Permission}
    {p : Permission} {a : String} :
    (p, a) ∈ grantExpansion grants cat ↔ ∃ g ∈ grants,
      p ∈ cat ∧ matches_glob (splitOnFirstSlash g.argument).1 p.name = true ∧
        a = ((splitOnFirstSlash g.argument).2.getD "*") := by
  unfold grantExpansion
  rw [mem_foldr_append]
  simp only [List.not_mem_nil, false_or, List.mem_map, List.mem_filter,
    Prod.mk.injEq]
  constructor
  · rintro ⟨g, hg, q, ⟨hq, hglob⟩, rfl, rfl⟩
    exact ⟨g, hg, hq, hglob, rfl⟩
  · rintro ⟨g, hg, hp, hglob, rfl⟩
    exact ⟨g, hg, p, ⟨hp, hglob⟩, rfl, rfl⟩

theorem mem_filter_grantable {grants : List Grant} {cat : List Permission}
    {x : Permission × String} (h : x ∈ filter_grantable_permissions grants cat) :
    x.1 ∈ cat := by
  unfold filter_grantable_permissions at h
  rw [List.mem_insertionSort] at h
  obtain ⟨p, a⟩ := x
  rw [mem_grantExpansion] at h
  obtain ⟨g, _, hp, _, _⟩ := h
  exact hp

theorem mem_dictByName {l : List Permission} {p : Permission}
    (h : p ∈ dictByName l) : p ∈ l := by
  unfold dictByName at h
  simp only [List.mem_filterMap] at h
  obtain ⟨n, _, hfind⟩ := h
  have := List.mem_of_find?_eq_some hfind
  simpa using this

theorem foldl_name_acc {l : List Permission} {acc : List String} {n : String} :
    n ∈ l.foldl (fun acc p => if p.name ∈ acc then acc else acc ++ [p.name]) acc ↔
      n ∈ acc ∨ ∃ p ∈ l, p.name = n := by
  induction l generalizing acc with
  | nil => simp
  | cons q l ih =>
    simp only [List.foldl_cons, ih, List.mem_cons]
    by_cases hq : q.name ∈ acc
    · simp only [if_pos hq]
      constructor
      · rintro (h | h)
        · exact Or.inl h
        · exact Or.inr ⟨h.choose, Or.inr h.choose_spec.1, h.choose_spec.2⟩
      · rintro (h | ⟨p, hp | hp, rfl⟩)
        · exact Or.inl h
        · exact Or.inl (hp ▸ hq)
        · exact Or.inr ⟨p, hp, rfl⟩
    · simp only [if_neg hq, List.mem_append, List.mem_singleton]
      constructor
      · rintro ((h | h) | h)
        · exact Or.inl h
        · exact Or.inr ⟨q, Or.inl rfl, h.symm⟩
        · exact Or.inr ⟨h.choose, Or.inr h.choose_spec.1, h.choose_spec.2⟩
      · rintro (h | ⟨p, hp | hp, rfl⟩)
        · exact Or.inl (Or.inl h)
        · exact Or.inl (Or.inr (by rw [hp]))
        · exact Or.inr ⟨p, hp, rfl⟩

theorem dictByName_name_mem {l : List Permission} {n : String}
    (h : ∃ p ∈ l, p.name = n) : ∃ p ∈ dictByName l, p.name = n := by
  unfold dictByName
  have hn : n ∈ l.foldl
      (fun acc p => if p.name ∈ acc then acc else acc ++ [p.name]) [] :=
    foldl_name_acc.mpr (Or.inr h)
  obtain ⟨p, hp, hpn⟩ := h
  have hrev : p ∈ l.reverse := List.mem_reverse.mpr hp
  have : ∃ q, l.reverse.find? (fun q => q.name == n) = some q := by
    have hs : (l.reverse.find? (fun q => q.name == n)).isSome := by
      rw [List.find?_isSome]
      exact ⟨p, hrev, by simp [hpn]⟩
    cases hfind : l.reverse.find? (fun q => q.name == n) with
    | none => rw [hfind] at hs; simp at hs
    | some q => exact ⟨q, rfl⟩
  obtain ⟨q, hq⟩ := this
  refine ⟨q, ?_, ?_⟩
  · simp only [List.mem_filterMap]
    exact ⟨n, hn, hq⟩
  · have := List.find?_some hq
    simpa using this

theorem mem_foldl_union (f : PermItem → Finset PermItem) (A : List PermItem)
    (acc : Finset PermItem) (x : PermItem) :
    x ∈ A.foldl (fun ret perm => ret ∪ f perm) acc ↔
      x ∈ acc ∨ ∃ p ∈ A, x ∈ f p := by
  induction A generalizing acc with
  | nil => simp
  | cons a A ih =>
    simp only [List.foldl_cons, ih, Finset.mem_union, List.mem_cons]
    constructor
    · rintro ((h | h) | ⟨p, hp, hx⟩)
      · exact Or.inl h
      · exact Or.inr ⟨a, Or.inl rfl, h⟩
      · exact Or.inr ⟨p, Or.inr hp, hx⟩
    · rintro (h | ⟨p, hp | hp, hx⟩)
      · exact Or.inl (Or.inl h)
      · exact Or.inl (Or.inr (hp ▸ hx))
      · exact Or.inr ⟨p, hp, hx⟩

theorem mem_permission_intersection {A B : List PermItem} {x : PermItem} :
    x ∈ permission_intersection A B ↔ ∃ p ∈ A, x ∈ intersectStep B p := by
  unfold permission_intersection
  rw [mem_foldl_union]
  simp

theorem self_arg_mem_bKeys {B : List PermItem} {p : PermItem} (h : p ∈ B) :
    p.argument ∈ bKeys B p.name := by
  unfold bKeys
  exact List.mem_map_of_mem _ (List.mem_filter.mpr ⟨h, by simp⟩)

theorem charListLe_total (a : List Char) :
    ∀ b, charListLe a b = true ∨ charListLe b a = true := by
  induction a with
  | nil => intro b; left; rfl
  | cons x as ih =>
    intro b
    cases b with
    | nil => right; rfl
    | cons y bs =>
      simp only [charListLe]
      rcases Nat.lt_trichotomy x.toNat y.toNat with h | h | h
      · left; rw [if_pos h]
      · rw [if_neg (by omega), if_neg (by omega), if_neg (by omega), if_neg (by omega)]
        exact ih bs
      · right; rw [if_pos h]

theorem charListLe_trans (a : List Char) : ∀ b c, charListLe a b = true →
    charListLe b c = true → charListLe a c = true := by
  induction a with
  | nil => intro b c _ _; rfl
  | cons x as ih =>
    intro b c hab hbc
    cases b with
    | nil => simp [charListLe] at hab
    | cons y bs =>
      cases c with
      | nil => simp [charListLe] at hbc
      | cons z cs =>
        simp only [charListLe] at hab hbc ⊢
        rcases Nat.lt_trichotomy y.toNat z.toNat with h1 | h1 | h1
        · rcases Nat.lt_trichotomy x.toNat y.toNat with h2 | h2 | h2
          · rw [if_pos (by omega)]
          · rw [if_pos (by omega)]
          · rw [if_neg (by omega), if_pos h2] at hab
            exact absurd hab (by simp)
        · rcases Nat.lt_trichotomy x.toNat y.toNat with h2 | h2 | h2
          · rw [if_pos (by omega)]
          · rw [if_neg (by omega), if_neg (by omega)] at hab
            rw [if_neg (by omega), if_neg (by omega)] at hbc
            rw [if_neg (by omega), if_neg (by omega)]
            exact ih bs cs hab hbc
          · rw [if_neg (by omega), if_pos h2] at hab
            exact absurd hab (by simp)
        · rw [if_neg (by omega), if_pos h1] at hbc
          exact absurd hbc (by simp)

theorem any_map_ne_star (args : List String) :
    ((args.map fun a => a != "*").any id) = true ↔ ∃ a ∈ args, a ≠ "*" := by
  simp

theorem all_map_ne_star (args : List String) :
    ((args.map fun a => a != "*").all id) = true ↔ ∀ a ∈ args, a ≠ "*" := by
  simp

theorem filter_grantable_sorted_concat (grants : List Grant)
    (cat : List Permission) :
    (filter_grantable_permissions grants cat).Sorted
      (fun x y => strLeB (x.1.name ++ x.2) (y.1.name ++ y.2) = true) := by
  haveI : IsTotal (Permission × String)
      (fun x y => strLeB (x.1.name ++ x.2) (y.1.name ++ y.2) = true) :=
    ⟨fun a b => charListLe_total _ _⟩
  haveI : IsTrans (Permission × String)
      (fun x y => strLeB (x.1.name ++ x.2) (y.1.name ++ y.2) = true) :=
    ⟨fun _ _ _ hab hbc => charListLe_trans _ _ _ hab hbc⟩
  exact List.sorted_insertionSort _ _

theorem mem_get_all_permissions {st : Store} {p : Permission} :
    p ∈ get_all_permissions st false ↔ p ∈ st.permissions ∧ p.enabled = true := by
  unfold get_all_permissions
  rw [List.mem_insertionSort]
  simp [List.mem_filter]

theorem mem_get_owners_iff (env : Env) (st : Store) (sep : Bool)
    (e : OwnerEntry) (hplug : env.plugins = []) :
    e ∈ get_owners_by_grantable_permission env st sep ↔
      ∃ g ∈ st.groups.filter (·.enabled),
        (if holdsPermissionAdmin st g then
          e ∈ (dictByName (get_all_permissions st false)).map
              (fun p => OwnerEntry.mk (.perm p.name) "*" g) ++
            (if sep then [OwnerEntry.mk .globalOwners "*" g] else [])
        else
          e ∈ (filter_grantable_permissions
            ((((allGroupPermissions st).filter
                  fun (r : GroupGrantRow) => r.group.id == g.id).filter
                fun (gp : GroupGrantRow) => gp.permName == PERMISSION_GRANT).map
              fun (r : GroupGrantRow) => Grant.mk r.permName r.argument)
            (dictByName (get_all_permissions st false))).map
              fun (pa : Permission × String) => OwnerEntry.mk (.perm pa.1.name) pa.2 g) := by
  unfold get_owners_by_grantable_permission
  rw [hplug]
  simp only [List.foldr_nil, List.append_nil]
  rw [mem_foldr_append]
  simp only [List.not_mem_nil, false_or, holdsPermissionAdmin]
  constructor
  · rintro ⟨g, hg, hmem⟩
    refine ⟨g, hg, ?_⟩
    by_cases hadm : (((allGroupPermissions st).filter
        fun r => r.group.id == g.id).any fun r => r.permName == PERMISSION_ADMIN) = true
    · rw [if_pos hadm]
      rw [if_pos hadm] at hmem
      exact hmem
    · rw [if_neg hadm]
      rw [if_neg (by simpa using hadm)] at hmem
      exact hmem
  · rintro ⟨g, hg, hmem⟩
    refine ⟨g, hg, ?_⟩
    by_cases hadm : (((allGroupPermissions st).filter
        fun r => r.group.id == g.id).any fun r => r.permName == PERMISSION_ADMIN) = true
    · rw [if_pos hadm] at hmem
      rw [if_pos hadm]
      exact hmem
    · rw [if_neg (by simpa using hadm)] at hmem
      rw [if_neg hadm]
      exact hmem

theorem tryCommit_snd (s : Session) :
    (s.tryCommit).2 = none ∨ (s.tryCommit).2 = some PermErr.integrityError := by
  unfold Session.tryCommit
  split <;> simp

theorem grant_permission_snd (s : Session) (gid pid : Nat) (a : String) :
    (grant_permission s gid pid a).2 = none ∨
      (grant_permission s gid pid a).2 = some PermErr.assertionError ∨
      (grant_permission s gid pid a).2 = some PermErr.integrityError := by
  unfold grant_permission
  split
  · simp
  · rcases tryCommit_snd ((s.addGrantRow ⟨gid, pid, a⟩).incrUpdates) with h | h
    · left; exact h
    · right; right; exact h

theorem requestStatus_after_set (l : List Request) (rid : Nat) (st' : String)
    (h : ∃ r ∈ l, r.id = rid) :
    ((l.map fun r => if r.id = rid then { r with status := st' } else r).find?
      fun r => r.id == rid).map (·.status) = some st' := by
  induction l with
  | nil => simp at h
  | cons a l ih =>
    by_cases ha : a.id = rid
    · simp only [List.map_cons, if_pos ha, List.find?_cons]
      rw [show (a.id == rid) = true from by simpa using ha]
      rfl
    · simp only [List.map_cons, if_neg ha, List.find?_cons]
      rw [show (a.id == rid) = false from by simpa using ha]
      dsimp only
      apply ih
      obtain ⟨r, hr, hrid⟩ := h
      rcases List.mem_cons.mp hr with rfl | hr
      · exact absurd hrid ha
      · exact ⟨r, hr, hrid⟩

theorem update_request_run (env : Env) (s : Session) (request : Request)
    (user : UserRow) (new_status comment : String) (perm : Permission)
    (group : Group)
    (hne : request.status ≠ new_status)
    (hperm : lookupPermission s.mem request.permissionId = some perm)
    (hgroup : lookupGroup s.mem request.groupId = some group)
    (haud : new_status = "actioned" → perm.audited = true →
      env.auditorsOk group.id = true)
    (hnodup : (grantTriples s.mem.permissionMaps).Nodup)
    (harg : new_status = "actioned" → validArgument request.argument = true) :
    ∃ s' : Session,
      update_request env s request user new_status comment = (s', none) ∧
      s'.mem = s'.db ∧
      s'.db.requests = s.mem.requests.map (fun r =>
        if r.id = request.id then { r with status := new_status } else r) ∧
      s'.db.statusChanges = s.mem.statusChanges ++
        [⟨s.mem.nextId, request.id, user.id, some request.status, new_status,
          env.now⟩] ∧
      s'.db.comments = s.mem.comments ++
        [⟨objTypeStatusChange, s.mem.nextId, user.id, comment, env.now⟩] ∧
      s'.db.permissionMaps = (if new_status = "actioned" ∧
          (group.id, perm.id, request.argument) ∉ grantTriples s.mem.permissionMaps
        then s.mem.permissionMaps ++ [⟨group.id, perm.id, request.argument⟩]
        else s.mem.permissionMaps) ∧
      s'.db.auditEntries = s.mem.auditEntries ++ [⟨user.id, "update_perm_request",
        "updated permission request to status: " ++ new_status,
        some request.groupId, some request.requesterId, some perm.id⟩] ∧
      s'.sent = s.sent ++ [⟨[lookupUserName s.mem request.requesterId],
        if new_status = "actioned" then "permission_request_actioned"
        else "permission_request_cancelled"⟩] := by
  unfold update_request
  rw [if_neg hne, hperm, hgroup]
  dsimp only
  rw [if_neg (by rintro ⟨h1, h2, h3⟩; rw [haud h1 h2] at h3; simp at h3)]
  by_cases hact : new_status = "actioned"
  · subst hact
    have hvalid : validArgument request.argument = true := harg rfl
    by_cases hconf : (group.id, perm.id, request.argument) ∈
        grantTriples s.mem.permissionMaps
    · have hbad : ¬ ((grantTriples (s.mem.permissionMaps ++
          [⟨group.id, perm.id, request.argument⟩])).Nodup) := by
        intro h
        rw [show grantTriples (s.mem.permissionMaps ++
            [⟨group.id, perm.id, request.argument⟩]) =
            grantTriples s.mem.permissionMaps ++
              [(group.id, perm.id, request.argument)] by simp [grantTriples]] at h
        rcases List.nodup_append.mp h with ⟨-, -, hdisj⟩
        exact hdisj hconf (List.mem_singleton_self _)
      simp only [Session.addStatusChange, Session.addComment, Session.tryCommit,
        Session.addAudit, Session.rollback, Session.incrUpdates,
        Session.addGrantRow, grant_permission, hnodup, hvalid, hbad,
        Bool.not_true, Bool.false_eq_true, if_false, if_true, ite_true, ite_false]
      refine ⟨_, rfl, rfl, rfl, rfl, rfl, ?_, rfl, rfl⟩
      rw [if_neg (by rintro ⟨-, h⟩; exact h hconf)]
    · have hok : ((grantTriples (s.mem.permissionMaps ++
          [⟨group.id, perm.id, request.argument⟩])).Nodup) := by
        rw [show grantTriples (s.mem.permissionMaps ++
            [⟨group.id, perm.id, request.argument⟩]) =
            grantTriples s.mem.permissionMaps ++
              [(group.id, perm.id, request.argument)] by simp [grantTriples]]
        rw [List.nodup_append]
        refine ⟨hnodup, List.nodup_singleton _, ?_⟩
        intro x hx hx1
        rw [List.mem_singleton] at hx1
        subst hx1
        exact hconf hx
      simp only [Session.addStatusChange, Session.addComment, Session.tryCommit,
        Session.addAudit, Session.rollback, Session.incrUpdates,
        Session.addGrantRow, grant_permission, hnodup, hvalid, hok,
        Bool.not_true, Bool.false_eq_true, if_false, if_true, ite_true, ite_false]
      refine ⟨_, rfl, rfl, rfl, rfl, rfl, ?_, rfl, rfl⟩
      rw [if_pos ⟨trivial, hconf⟩]
  · simp only [Session.addStatusChange, Session.addComment, Session.tryCommit,
      Session.addAudit, Session.rollback, Session.incrUpdates,
      Session.addGrantRow, grant_permission, hnodup, hact,
      Bool.not_true, Bool.false_eq_true, if_false, if_true, ite_true, ite_false]
    refine ⟨_, rfl, rfl, rfl, rfl, rfl, ?_, rfl, rfl⟩
    rw [if_neg (by rintro ⟨h1, -⟩; exact h1)]

/-! ### Claim theorems -/

/-- C2 (corrected): the grant reducer's output is, as a multiset, exactly the
un-deduplicated expansion of the delegations against the catalog (so
duplicate (permission, argument-pattern) pairs survive), and it is sorted by
the *concatenated string* `permission.name ++ argument-pattern` — the actual
Python sort key `x[0].name + x[1]` — rather than by the
(name, argument-pattern) pair. -/
theorem filter_grantable_permissions_order (grants : List Grant)
    (cat : List Permission) :
    (filter_grantable_permissions grants cat).Perm (grantExpansion grants cat) ∧
      (filter_grantable_permissions grants cat).Sorted
        (fun x y => strLeB (x.1.name ++ x.2) (y.1.name ++ y.2) = true) :=
  ⟨List.perm_insertionSort _ _, filter_grantable_sorted_concat grants cat⟩

/-- C2 counterexample: with catalog permissions named `a` and `ab` and the
delegations `a/z`, `ab/`, `a/z` the output is
`[(ab, ""), (a, "z"), (a, "z")]`: it has a duplicate pair, and it is not
sorted lexicographically by the (name, argument-pattern) pair, which would
put `(a, "z")` first. -/
theorem filter_grantable_permissions_order_counterexample :
    ¬ ((filter_grantable_permissions
          [⟨PERMISSION_GRANT, "a/z"⟩, ⟨PERMISSION_GRANT, "ab/"⟩,
           ⟨PERMISSION_GRANT, "a/z"⟩]
          [⟨1, "a", "", true, false⟩, ⟨2, "ab", "", true, false⟩]).Nodup ∧
        (filter_grantable_permissions
          [⟨PERMISSION_GRANT, "a/z"⟩, ⟨PERMISSION_GRANT, "ab/"⟩,
           ⟨PERMISSION_GRANT, "a/z"⟩]
          [⟨1, "a", "", true, false⟩, ⟨2, "ab", "", true, false⟩]).Sorted
          (fun x y => strLeB x.1.name y.1.name = true ∧
            (x.1.name = y.1.name → strLeB x.2 y.2 = true))) := by
  intro h
  have he : filter_grantable_permissions
      [⟨PERMISSION_GRANT, "a/z"⟩, ⟨PERMISSION_GRANT, "ab/"⟩,
       ⟨PERMISSION_GRANT, "a/z"⟩]
      [⟨1, "a", "", true, false⟩, ⟨2, "ab", "", true, false⟩] =
      [(⟨2, "ab", "", true, false⟩, ""), (⟨1, "a", "", true, false⟩, "z"),
       (⟨1, "a", "", true, false⟩, "z")] := by decide
  obtain ⟨hnodup, hsorted⟩ := h
  rw [he] at hsorted
  have h1 := (List.pairwise_cons.mp hsorted).1
    ((⟨1, "a", "", true, false⟩ : Permission), "z") (by simp)
  exact absurd h1.1 (by decide)

/-- C3 (corrected): the argument-set reducer returns the sorted deduplicated
non-wildcard arguments when the permission is restricted and a non-wildcard
argument exists; the sorted deduplicated set when every argument is
non-wildcard; and otherwise (a wildcard is owned and the restricted
suppression does not apply) exactly `["*"]` — in particular, for owned
patterns `{"*", "east"}` a restricted permission reduces to `["east"]` but a
non-restricted one reduces to `["*"]`, not `["*", "east"]`. -/
theorem reduce_args_characterization (restricted : List String)
    (perm_name : String) (args : List String) :
    (perm_name ∈ restricted → (∃ a ∈ args, a ≠ "*") →
      reduce_args restricted perm_name args =
        sortedSet (args.filter fun a => a != "*")) ∧
    ((∀ a ∈ args, a ≠ "*") →
      reduce_args restricted perm_name args = sortedSet args) ∧
    (¬ (perm_name ∈ restricted ∧ ∃ a ∈ args, a ≠ "*") → (∃ a ∈ args, a = "*") →
      reduce_args restricted perm_name args = ["*"]) ∧
    reduce_args ["p"] "p" ["*", "east"] = ["east"] ∧
    reduce_args [] "p" ["*", "east"] = ["*"] := by
  refine ⟨?_, ?_, ?_, by decide, by decide⟩
  · intro hmem h
    unfold reduce_args
    rw [if_pos ⟨List.ne_nil_of_mem hmem, hmem, (any_map_ne_star args).mpr h⟩]
  · intro hall
    unfold reduce_args
    by_cases hfirst : restricted ≠ [] ∧ perm_name ∈ restricted ∧
        ((args.map fun a => a != "*").any id) = true
    · rw [if_pos hfirst]
      congr 1
      apply List.filter_eq_self.mpr
      intro a ha
      simpa using hall a ha
    · rw [if_neg hfirst, if_pos ((all_map_ne_star args).mpr hall)]
  · intro hnot h
    obtain ⟨a, ha, hstar⟩ := h
    unfold reduce_args
    rw [if_neg, if_neg]
    · rw [all_map_ne_star args]
      intro hcon
      exact hcon a ha hstar
    · rintro ⟨_, hmem, hany⟩
      exact hnot ⟨hmem, (any_map_ne_star args).mp hany⟩

/-- C3 counterexample: for owned patterns `{"*", "east"}` and a permission
not in the restricted list, the reducer returns `["*"]`, not the
`["*", "east"]` the claim asserts. -/
theorem reduce_args_nonrestricted_counterexample :
    reduce_args [] "p" ["*", "east"] ≠ ["*", "east"] := by
  decide

/-- Witness for C3 at concrete inputs: restricted `{"*","east"}` gives the
non-wildcard branch, an all-non-wildcard list gives the sorted set, and
non-restricted `{"*","east"}` gives `["*"]`. -/
theorem reduce_args_characterization_witness :
    reduce_args ["p"] "p" ["*", "east"] =
        sortedSet (["*", "east"].filter fun a => a != "*") ∧
      reduce_args [] "q" ["y", "x"] = sortedSet ["y", "x"] ∧
      reduce_args [] "p" ["*", "east"] = ["*"] :=
  ⟨(reduce_args_characterization ["p"] "p" ["*", "east"]).1 (by decide)
      ⟨"east", by decide, by decide⟩,
    (reduce_args_characterization [] "q" ["y", "x"]).2.1 (by decide),
    (reduce_args_characterization [] "p" ["*", "east"]).2.2.1 (by decide)
      ⟨"*", by decide, rfl⟩⟩

/-- C7: when an item of `perms_a` matches a name present in `perms_b` but not
exactly, its argument is non-empty and not matched by a wildcard in
`perms_b`, and `perms_b` holds an unargumented grant for that name, the
intersection contains B's unargumented item and not A's item; in particular
`intersect({(p,"*")}, {(p,"")}) = {(p,"")}` and the swapped call gives
`{(p,"")}` as well. -/
theorem permission_intersection_unargumented_canonical
    (A B : List PermItem) (perm : PermItem) :
    (perm ∈ A →
      (B.any fun p => p.name == perm.name) = true →
      perm.argument ∉ bKeys B perm.name →
      perm.argument ≠ "" →
      "*" ∉ bKeys B perm.name →
      "" ∈ bKeys B perm.name →
      PermItem.mk perm.name "" ∈ permission_intersection A B ∧
        perm ∉ permission_intersection A B) ∧
    permission_intersection [⟨"p", "*"⟩] [⟨"p", ""⟩] = {⟨"p", ""⟩} ∧
    permission_intersection [⟨"p", ""⟩] [⟨"p", "*"⟩] = {⟨"p", ""⟩} := by
  refine ⟨?_, by decide, by decide⟩
  intro hA hname hnotkey hnotempty hnostar hempty
  have hstep : intersectStep B perm = {⟨perm.name, ""⟩} := by
    unfold intersectStep
    rw [if_neg (by simp [hname]), if_neg hnotkey, if_neg hnotempty,
      if_neg hnostar, if_pos hempty]
  constructor
  · rw [mem_permission_intersection]
    exact ⟨perm, hA, by rw [hstep]; exact Finset.mem_singleton_self _⟩
  · rw [mem_permission_intersection]
    rintro ⟨q, hq, hmem⟩
    unfold intersectStep at hmem
    by_cases h1 : ¬ (B.any fun p => p.name == q.name) = true
    · rw [if_pos h1] at hmem
      exact absurd hmem (Finset.not_mem_empty _)
    · rw [if_neg h1] at hmem
      by_cases h2 : q.argument ∈ bKeys B q.name
      · rw [if_pos h2] at hmem
        rw [Finset.mem_singleton] at hmem
        subst hmem
        exact hnotkey h2
      · rw [if_neg h2] at hmem
        by_cases h3 : q.argument = ""
        · rw [if_pos h3] at hmem
          rw [Finset.mem_singleton] at hmem
          subst hmem
          exact hnotempty h3
        · rw [if_neg h3] at hmem
          by_cases h4 : "*" ∈ bKeys B q.name
          · rw [if_pos h4] at hmem
            rw [Finset.mem_singleton] at hmem
            subst hmem
            exact hnostar h4
          · rw [if_neg h4] at hmem
            by_cases h5 : "" ∈ bKeys B q.name
            · rw [if_pos h5] at hmem
              rw [Finset.mem_singleton] at hmem
              have : perm.argument = "" := by rw [hmem]
              exact hnotempty this
            · rw [if_neg h5] at hmem
              by_cases h6 : q.argument = "*"
              · rw [if_pos h6] at hmem
                rw [List.mem_toFinset] at hmem
                have hpB : perm ∈ B := (List.mem_filter.mp hmem).1
                exact hnotkey (self_arg_mem_bKeys hpB)
              · rw [if_neg h6] at hmem
                exact absurd hmem (Finset.not_mem_empty _)

/-- Witness for C7 at a concrete input: `A = [(p, x)]`,
`B = [(p, y), (p, "")]` — the intersection keeps B's `(p, "")` and drops
A's `(p, x)`. -/
theorem permission_intersection_unargumented_canonical_witness :
    PermItem.mk "p" "" ∈
        permission_intersection [⟨"p", "x"⟩] [⟨"p", "y"⟩, ⟨"p", ""⟩] ∧
      PermItem.mk "p" "x" ∉
        permission_intersection [⟨"p", "x"⟩] [⟨"p", "y"⟩, ⟨"p", ""⟩] :=
  (permission_intersection_unargumented_canonical
      [⟨"p", "x"⟩] [⟨"p", "y"⟩, ⟨"p", ""⟩] ⟨"p", "x"⟩).1
    (by decide) (by decide) (by decide) (by decide) (by decide) (by decide)

/-- C8: with no plugin contributions, every enabled group holding the
permission-admin marker is an owner under `"*"` of every enabled permission,
and the name of a disabled permission (not shared with any enabled
permission — names are unique in the data model) is not a key of the owner
map at all. -/
theorem owners_map_admin_enabled (env : Env) (st : Store) (sep : Bool) :
    env.plugins = [] →
    ((∀ g ∈ st.groups, g.enabled = true → holdsPermissionAdmin st g = true →
      ∀ p ∈ st.permissions, p.enabled = true →
        g ∈ ownerMapOwners (get_owners_by_grantable_permission env st sep)
          (.perm p.name) "*") ∧
    (∀ q ∈ st.permissions, q.enabled = false →
      (∀ r ∈ st.permissions, r.name = q.name → r.enabled = false) →
      OwnerKey.perm q.name ∉
        ownerMapKeys (get_owners_by_grantable_permission env st sep))) := by
  intro hplug
  constructor
  · intro g hg hgen hadmin p hp hpen
    obtain ⟨p', hp', hp'name⟩ :=
      dictByName_name_mem ⟨p, mem_get_all_permissions.mpr ⟨hp, hpen⟩, rfl⟩
    have hentry : OwnerEntry.mk (.perm p.name) "*" g ∈
        get_owners_by_grantable_permission env st sep := by
      rw [mem_get_owners_iff env st sep _ hplug]
      refine ⟨g, List.mem_filter.mpr ⟨hg, by simpa using hgen⟩, ?_⟩
      rw [if_pos hadmin]
      apply List.mem_append_left
      rw [List.mem_map]
      exact ⟨p', hp', by rw [hp'name]⟩
    unfold ownerMapOwners
    rw [List.mem_map]
    exact ⟨_, List.mem_filter.mpr ⟨hentry, by simp⟩, rfl⟩
  · intro q hq hqdis hall hkey
    unfold ownerMapKeys at hkey
    rw [List.mem_map] at hkey
    obtain ⟨e, he, hek⟩ := hkey
    rw [mem_get_owners_iff env st sep _ hplug] at he
    obtain ⟨g, hg, hbr⟩ := he
    by_cases hadm : holdsPermissionAdmin st g = true
    · rw [if_pos hadm] at hbr
      rcases List.mem_append.mp hbr with hbr | hbr
      · rw [List.mem_map] at hbr
        obtain ⟨p', hp', rfl⟩ := hbr
        have hname : p'.name = q.name := by simpa using hek
        have hmm := mem_get_all_permissions.mp (mem_dictByName hp')
        have hdis := hall p' hmm.1 hname
        rw [hdis] at hmm
        exact absurd hmm.2 (by simp)
      · by_cases hsep : sep = true
        · rw [if_pos hsep] at hbr
          rw [List.mem_singleton] at hbr
          subst hbr
          simp at hek
        · rw [if_neg hsep] at hbr
          exact absurd hbr (List.not_mem_nil _)
    · rw [if_neg hadm] at hbr
      rw [List.mem_map] at hbr
      obtain ⟨pa, hpa, rfl⟩ := hbr
      have hname : pa.1.name = q.name := by simpa using hek
      have hmm := mem_get_all_permissions.mp (mem_dictByName (mem_filter_grantable hpa))
      have hdis := hall pa.1 hmm.1 hname
      rw [hdis] at hmm
      exact absurd hmm.2 (by simp)

/-- Witness for C8: in `witStoreAdmin`, group `admins` (which holds the
admin marker) owns enabled `perm.x` under `"*"`, and the disabled
`perm.dead` is not a key of the owner map. -/
theorem owners_map_admin_enabled_witness :
    (⟨1, "admins", true, none⟩ : Group) ∈ ownerMapOwners
        (get_owners_by_grantable_permission witEnv witStoreAdmin false)
        (.perm "perm.x") "*" ∧
      OwnerKey.perm "perm.dead" ∉
        ownerMapKeys (get_owners_by_grantable_permission witEnv witStoreAdmin false) :=
  ⟨(owners_map_admin_enabled witEnv witStoreAdmin false rfl).1
      ⟨1, "admins", true, none⟩ (by decide) rfl (by decide)
      ⟨1, "perm.x", "", true, false⟩ (by decide) rfl,
    (owners_map_admin_enabled witEnv witStoreAdmin false rfl).2
      ⟨2, "perm.dead", "", false, false⟩ (by decide) rfl (by decide)⟩

/-- C1 (corrected): `update_request` never inspects the request's current
status beyond comparing it with `new_status`: a same-status call changes
nothing at all (no row, no comment, no audit entry, no email — the session
is returned untouched), but for *any* differing `new_status` the transition
is carried out, including transitions out of `actioned` or `cancelled` and
back to `pending`; the current status only survives in the `from_status`
field of the appended status-change row. -/
theorem update_request_status_transitions (env : Env) (s : Session)
    (request : Request) (user : UserRow) (new_status comment : String)
    (perm : Permission) (group : Group) :
    (request.status = new_status →
      update_request env s request user new_status comment = (s, none)) ∧
    (request.status ≠ new_status →
      lookupPermission s.mem request.permissionId = some perm →
      lookupGroup s.mem request.groupId = some group →
      (new_status = "actioned" → perm.audited = true →
        env.auditorsOk group.id = true) →
      (grantTriples s.mem.permissionMaps).Nodup →
      (new_status = "actioned" → validArgument request.argument = true) →
      (∃ r ∈ s.mem.requests, r.id = request.id) →
      (update_request env s request user new_status comment).2 = none ∧
        requestStatus (update_request env s request user new_status comment).1.db
          request.id = some new_status ∧
        (update_request env s request user new_status comment).1.db.statusChanges =
          s.mem.statusChanges ++ [⟨s.mem.nextId, request.id, user.id,
            some request.status, new_status, env.now⟩]) := by
  constructor
  · intro h
    unfold update_request
    rw [if_pos h]
  · intro hne hperm hgroup haud hnodup harg hex
    obtain ⟨s', heq, -, hreq, hsc, -, -, -, -⟩ :=
      update_request_run env s request user new_status comment perm group
        hne hperm hgroup haud hnodup harg
    rw [heq]
    refine ⟨rfl, ?_, hsc⟩
    show requestStatus s'.db request.id = some new_status
    unfold requestStatus
    rw [hreq]
    exact requestStatus_after_set _ _ _ hex

/-- Witness for C1: a same-status call is the identity, and a concrete
`cancelled → pending` call goes through with the transition recorded. -/
theorem update_request_status_transitions_witness :
    update_request witEnv (cleanSession witStore) witReqPending witUser
        "pending" "c" = (cleanSession witStore, none) ∧
      requestStatus (update_request witEnv (cleanSession witStoreCancelled)
        witReqCancelled witUser "pending" "back").1.db 10 = some "pending" :=
  ⟨(update_request_status_transitions witEnv (cleanSession witStore)
      witReqPending witUser "pending" "c" witPerm witGroup).1 rfl,
    ((update_request_status_transitions witEnv (cleanSession witStoreCancelled)
        witReqCancelled witUser "pending" "back" witPerm witGroup).2
      (by decide) (by decide) (by decide) (by decide) (by decide) (by decide)
      ⟨witReqCancelled, by decide, rfl⟩).2.1⟩

/-- C1 counterexample: a request already in the terminal state `cancelled`
is moved back to `pending` by `update_request`, with a
`cancelled → pending` status-change row appended — refuting both the
terminality of `cancelled`/`actioned` and the impossibility of returning to
`pending`. -/
theorem update_request_terminal_counterexample :
    requestStatus (update_request witEnv (cleanSession witStoreCancelled)
        witReqCancelled witUser "pending" "back").1.db 10 = some "pending" ∧
      (⟨20, 10, 7, some "cancelled", "pending", 100⟩ : StatusChange) ∈
        (update_request witEnv (cleanSession witStoreCancelled)
          witReqCancelled witUser "pending" "back").1.db.statusChanges := by
  decide

/-- C9: `update_request` performs no authorization check on the acting user:
for every user, once the same-status and auditor checks pass (and the rows
the code dereferences exist), the transition is carried out in full — no
error, the status updated, the status-change row persisted, the requester
notified, and the grant applied when actioning a not-yet-granted request —
with no hypothesis about `can_approve_request`'s verdict on that user. -/
theorem update_request_no_authorization_check (env : Env) (s : Session)
    (request : Request) (user : UserRow) (new_status comment : String)
    (perm : Permission) (group : Group)
    (hne : request.status ≠ new_status)
    (hperm : lookupPermission s.mem request.permissionId = some perm)
    (hgroup : lookupGroup s.mem request.groupId = some group)
    (haud : new_status = "actioned" → perm.audited = true →
      env.auditorsOk group.id = true)
    (hnodup : (grantTriples s.mem.permissionMaps).Nodup)
    (harg : new_status = "actioned" → validArgument request.argument = true)
    (hex : ∃ r ∈ s.mem.requests, r.id = request.id) :
    (update_request env s request user new_status comment).2 = none ∧
      requestStatus (update_request env s request user new_status comment).1.db
        request.id = some new_status ∧
      (update_request env s request user new_status comment).1.db.statusChanges =
        s.mem.statusChanges ++ [⟨s.mem.nextId, request.id, user.id,
          some request.status, new_status, env.now⟩] ∧
      (update_request env s request user new_status comment).1.sent =
        s.sent ++ [⟨[lookupUserName s.mem request.requesterId],
          if new_status = "actioned" then "permission_request_actioned"
          else "permission_request_cancelled"⟩] ∧
      (new_status = "actioned" →
        (group.id, perm.id, request.argument) ∉ grantTriples s.mem.permissionMaps →
        (update_request env s request user new_status comment).1.db.permissionMaps =
          s.mem.permissionMaps ++ [⟨group.id, perm.id, request.argument⟩]) := by
  obtain ⟨s', heq, -, hreq, hsc, -, hmaps, -, hsent⟩ :=
    update_request_run env s request user new_status comment perm group
      hne hperm hgroup haud hnodup harg
  rw [heq]
  refine ⟨rfl, ?_, hsc, hsent, ?_⟩
  · show requestStatus s'.db request.id = some new_status
    unfold requestStatus
    rw [hreq]
    exact requestStatus_after_set _ _ _ hex
  · intro hact hconf
    show s'.db.permissionMaps = _
    rw [hmaps, if_pos ⟨hact, hconf⟩]

/-- Witness for C9: `witUser` is in no group, so `can_approve_request`
reports no eligible group for them, yet their `actioned` update goes
through. -/
theorem update_request_no_authorization_check_witness :
    can_approve_request witEnv witStore witReqPending witUser none none = [] ∧
      (update_request witEnv (cleanSession witStore) witReqPending witUser
        "actioned" "ok").2 = none ∧
      requestStatus (update_request witEnv (cleanSession witStore)
        witReqPending witUser "actioned" "ok").1.db 10 = some "actioned" :=
  ⟨by decide,
    (update_request_no_authorization_check witEnv (cleanSession witStore)
        witReqPending witUser "actioned" "ok" witPerm witGroup (by decide)
        (by decide) (by decide) (by decide) (by decide) (by decide)
        ⟨witReqPending, by decide, rfl⟩).1,
    (update_request_no_authorization_check witEnv (cleanSession witStore)
        witReqPending witUser "actioned" "ok" witPerm witGroup (by decide)
        (by decide) (by decide) (by decide) (by decide) (by decide)
        ⟨witReqPending, by decide, rfl⟩).2.1⟩

/-- C5: actioning a request whose concrete (group, permission, argument)
grant already exists swallows the uniqueness conflict: no error propagates,
the request still ends `actioned`, exactly one new status-change row (and
its comment row and the status update) is committed — the final in-memory
view equals the committed database, so everything observable is durable —
and the grant table is left unchanged. -/
theorem update_request_grant_conflict_swallowed (env : Env) (s : Session)
    (request : Request) (user : UserRow) (comment : String)
    (perm : Permission) (group : Group)
    (hne : request.status ≠ "actioned")
    (hperm : lookupPermission s.mem request.permissionId = some perm)
    (hgroup : lookupGroup s.mem request.groupId = some group)
    (haud : perm.audited = true → env.auditorsOk group.id = true)
    (hnodup : (grantTriples s.mem.permissionMaps).Nodup)
    (harg : validArgument request.argument = true)
    (hconf : (group.id, perm.id, request.argument) ∈
      grantTriples s.mem.permissionMaps)
    (hex : ∃ r ∈ s.mem.requests, r.id = request.id) :
    (update_request env s request user "actioned" comment).2 = none ∧
      requestStatus (update_request env s request user "actioned" comment).1.db
        request.id = some "actioned" ∧
      (update_request env s request user "actioned" comment).1.db.statusChanges =
        s.mem.statusChanges ++ [⟨s.mem.nextId, request.id, user.id,
          some request.status, "actioned", env.now⟩] ∧
      (update_request env s request user "actioned" comment).1.db.comments =
        s.mem.comments ++ [⟨objTypeStatusChange, s.mem.nextId, user.id,
          comment, env.now⟩] ∧
      (update_request env s request user "actioned" comment).1.db.permissionMaps =
        s.mem.permissionMaps ∧
      (update_request env s request user "actioned" comment).1.mem =
        (update_request env s request user "actioned" comment).1.db := by
  obtain ⟨s', heq, hmemdb, hreq, hsc, hcom, hmaps, -, -⟩ :=
    update_request_run env s request user "actioned" comment perm group
      hne hperm hgroup (fun _ => haud) hnodup (fun _ => harg)
  rw [heq]
  refine ⟨rfl, ?_, hsc, hcom, ?_, hmemdb⟩
  · show requestStatus s'.db request.id = some "actioned"
    unfold requestStatus
    rw [hreq]
    exact requestStatus_after_set _ _ _ hex
  · show s'.db.permissionMaps = _
    rw [hmaps, if_neg (by rintro ⟨-, h⟩; exact h hconf)]

/-- Witness for C5: the grant `(1, 1, "arg")` already exists in
`witStoreConflict`; actioning the pending request still succeeds and leaves
the grant table unchanged. -/
theorem update_request_grant_conflict_swallowed_witness :
    (update_request witEnv (cleanSession witStoreConflict) witReqPending
        witUser "actioned" "ok").2 = none ∧
      requestStatus (update_request witEnv (cleanSession witStoreConflict)
        witReqPending witUser "actioned" "ok").1.db 10 = some "actioned" ∧
      (update_request witEnv (cleanSession witStoreConflict) witReqPending
        witUser "actioned" "ok").1.db.permissionMaps = [⟨1, 1, "arg"⟩] :=
  have h := update_request_grant_conflict_swallowed witEnv
    (cleanSession witStoreConflict) witReqPending witUser "ok" witPerm witGroup
    (by decide) (by decide) (by decide) (by decide) (by decide) (by decide)
    (by decide) ⟨witReqPending, by decide, rfl⟩
  ⟨h.1, h.2.1, h.2.2.2.2.1⟩

theorem update_request_userNotAuditor_inv (env : Env) (s : Session)
    (request : Request) (user : UserRow) (new_status comment : String) :
    (update_request env s request user new_status comment).2 =
      some PermErr.userNotAuditor →
    update_request env s request user new_status comment =
      (s, some PermErr.userNotAuditor) := by
  intro h
  by_cases hsame : request.status = new_status
  · unfold update_request at h
    rw [if_pos hsame] at h
    simp at h
  · rcases heqP : lookupPermission s.mem request.permissionId with _ | perm
    · unfold update_request at h
      rw [if_neg hsame, heqP] at h
      dsimp only at h
      simp at h
    · rcases heqG : lookupGroup s.mem request.groupId with _ | group
      · unfold update_request at h
        rw [if_neg hsame, heqP, heqG] at h
        dsimp only at h
        simp at h
      · by_cases hcond : new_status = "actioned" ∧ perm.audited = true ∧
            (!env.auditorsOk group.id) = true
        · unfold update_request
          rw [if_neg hsame, heqP, heqG]
          dsimp only
          rw [if_pos hcond]
        · exfalso
          have haud : new_status = "actioned" → perm.audited = true →
              env.auditorsOk group.id = true := by
            intro h1 h2
            cases hb : env.auditorsOk group.id
            · exact absurd ⟨h1, h2, by simp [hb]⟩ hcond
            · rfl
          by_cases hnd : (grantTriples s.mem.permissionMaps).Nodup
          · by_cases hact : new_status = "actioned"
            · by_cases hval : validArgument request.argument = true
              · obtain ⟨s', heq, -⟩ := update_request_run env s request user
                  new_status comment perm group hsame heqP heqG haud hnd
                  (fun _ => hval)
                rw [heq] at h
                simp at h
              · subst hact
                have hv : validArgument request.argument = false := by
                  cases hv : validArgument request.argument
                  · rfl
                  · exact absurd hv hval
                unfold update_request at h
                rw [if_neg hsame, heqP, heqG] at h
                dsimp only at h
                rw [if_neg hcond] at h
                simp only [Session.addStatusChange, Session.addComment,
                  Session.tryCommit, Session.addAudit, Session.rollback,
                  Session.incrUpdates, Session.addGrantRow, grant_permission,
                  hnd, hv, Bool.not_false, Bool.not_true, if_false, if_true,
                  ite_true, ite_false] at h
                simp at h
            · obtain ⟨s', heq, -⟩ := update_request_run env s request user
                new_status comment perm group hsame heqP heqG haud hnd
                (fun hh => absurd hh hact)
              rw [heq] at h
              simp at h
          · unfold update_request at h
            rw [if_neg hsame, heqP, heqG] at h
            dsimp only at h
            rw [if_neg hcond] at h
            simp only [Session.addStatusChange, Session.addComment,
              Session.tryCommit, hnd, if_false, ite_false] at h
            simp at h

theorem create_request_error_unchanged (env : Env) (s : Session)
    (user : UserRow) (group : Group) (permission : Permission)
    (argument reason : String) :
    ∀ e, (create_request env s user group permission argument reason).2 =
        Except.error e →
      (create_request env s user group permission argument reason).1 = s := by
  intro e h
  unfold create_request at h ⊢
  dsimp only at h ⊢
  split_ifs at h ⊢ <;> rfl

/-- C4: every validation failure is raised before any persistent mutation.
For `create_request`, *any* error leaves the session exactly as it was (all
four guards — already-granted, duplicate-pending, owner-availability,
auditor — run before the first row is added, and nothing after them can
fail). For `update_request`, the auditor error always leaves the session
untouched; in particular, actioning an audited permission for a group whose
controllers are not all auditors returns exactly
`(s, UserNotAuditor)` — the request keeps its status and no status-change
row is added. -/
theorem validation_precedes_mutation (env : Env) (s : Session)
    (user : UserRow) (group : Group) (permission : Permission)
    (argument reason : String) (request : Request)
    (new_status comment : String) :
    (∀ e, (create_request env s user group permission argument reason).2 =
        Except.error e →
      (create_request env s user group permission argument reason).1 = s) ∧
    ((update_request env s request user new_status comment).2 =
        some PermErr.userNotAuditor →
      (update_request env s request user new_status comment).1 = s) ∧
    (∀ (perm : Permission) (grp : Group), request.status = "pending" →
      lookupPermission s.mem request.permissionId = some perm →
      perm.audited = true →
      lookupGroup s.mem request.groupId = some grp →
      env.auditorsOk grp.id = false →
      update_request env s request user "actioned" comment =
        (s, some PermErr.userNotAuditor)) := by
  refine ⟨create_request_error_unchanged env s user group permission argument
    reason, ?_, ?_⟩
  · intro h
    rw [update_request_userNotAuditor_inv env s request user new_status comment h]
  · intro perm grp hp hperm haudited hgrp hnotauditor
    have hne : request.status ≠ "actioned" := by rw [hp]; decide
    unfold update_request
    rw [if_neg hne, hperm, hgrp]
    dsimp only
    rw [if_pos ⟨rfl, haudited, by simp [hnotauditor]⟩]

/-- Witness for C4: a create that fails the already-granted guard leaves the
session unchanged, and actioning the audited `perm.one` with `witEnv`'s
always-failing auditor check returns the auditor error with the session
untouched (request still pending, no rows added). -/
theorem validation_precedes_mutation_witness :
    (create_request witEnvGranted (cleanSession witStore) witUser witGroup
        witPerm "arg" "r").1 = cleanSession witStore ∧
      update_request witEnv (cleanSession witStoreAudited) witReqPending
        witUser "actioned" "c" = (cleanSession witStoreAudited, some .userNotAuditor) :=
  ⟨(validation_precedes_mutation witEnvGranted (cleanSession witStore) witUser
      witGroup witPerm "arg" "r" witReqPending "actioned" "c").1
      PermErr.requestAlreadyGranted rfl,
    (validation_precedes_mutation witEnv (cleanSession witStoreAudited) witUser
      witGroup witPermAudited "arg" "r" witReqPending "actioned" "c").2.2
      witPermAudited witGroup rfl (by decide) rfl (by decide) rfl⟩

/-- C6: `create_request` raises `RequestAlreadyGranted` whenever the group's
currently-effective permissions contain the exact (permission, argument)
pair, and (when they do not) raises `RequestAlreadyExists` whenever a
pending request for the identical (group, permission, argument) triple
exists; in both cases the session is returned unchanged — no request is
created. -/
theorem create_request_duplicate_guards (env : Env) (s : Session)
    (user : UserRow) (group : Group) (permission : Permission)
    (argument reason : String) :
    ((∃ pr ∈ env.myPermissions group.id,
        pr.1 = permission.name ∧ pr.2 = argument) →
      create_request env s user group permission argument reason =
        (s, Except.error PermErr.requestAlreadyGranted)) ∧
    ((∀ pr ∈ env.myPermissions group.id,
        ¬(pr.1 = permission.name ∧ pr.2 = argument)) →
      (∃ r ∈ s.mem.requests, r.groupId = group.id ∧
        r.permissionId = permission.id ∧ r.argument = argument ∧
        r.status = "pending") →
      create_request env s user group permission argument reason =
        (s, Except.error PermErr.requestAlreadyExists)) := by
  constructor
  · rintro ⟨pr, hpr, h1, h2⟩
    have hc : ((env.myPermissions group.id).any
        fun pr => pr.1 == permission.name && pr.2 == argument) = true := by
      rw [List.any_eq_true]
      exact ⟨pr, hpr, by simp [h1, h2]⟩
    unfold create_request
    rw [if_pos hc]
  · intro hng hex
    obtain ⟨r, hr, h1, h2, h3, h4⟩ := hex
    have hc1 : ¬ (((env.myPermissions group.id).any
        fun pr => pr.1 == permission.name && pr.2 == argument) = true) := by
      rw [List.any_eq_true]
      rintro ⟨pr, hpr, hb⟩
      simp only [Bool.and_eq_true, beq_iff_eq] at hb
      exact hng pr hpr hb
    have hc2 : 0 < (s.mem.requests.filter fun r =>
        r.groupId == group.id && r.permissionId == permission.id &&
        r.argument == argument && r.status == "pending").length := by
      rw [List.length_pos]
      exact List.ne_nil_of_mem
        (List.mem_filter.mpr ⟨hr, by simp [h1, h2, h3, h4]⟩)
    unfold create_request
    rw [if_neg hc1, if_pos hc2]

/-- Witness for C6: with the pair already effective the granted error fires;
with a pending duplicate in the store the exists error fires. -/
theorem create_request_duplicate_guards_witness :
    create_request witEnvGranted (cleanSession witStore) witUser witGroup
        witPerm "arg" "r" =
      (cleanSession witStore, Except.error PermErr.requestAlreadyGranted) ∧
      create_request witEnv (cleanSession witStore) witUser witGroup witPerm
        "arg" "r" =
      (cleanSession witStore, Except.error PermErr.requestAlreadyExists) :=
  ⟨(create_request_duplicate_guards witEnvGranted (cleanSession witStore)
      witUser witGroup witPerm "arg" "r").1
      ⟨("perm.one", "arg"), by decide, rfl, rfl⟩,
    (create_request_duplicate_guards witEnv (cleanSession witStore) witUser
      witGroup witPerm "arg" "r").2 (by decide)
      ⟨witReqPending, by decide, rfl, rfl, rfl, rfl⟩⟩

/-- C10: `get_requests` returns the Python slice `requests[offset:limit]` of
the filtered, date-sorted request list — hence at most
`max(0, limit - offset)` entries, and none at all once `offset ≥ limit` —
while the returned total counts every matching request before pagination. -/
theorem get_requests_pagination (env : Env) (st : Store)
    (status : Option String) (limit offset : Nat)
    (owner requester : Option UserRow) (obap : Option (List OwnerEntry)) :
    (get_requests env st status limit offset owner requester obap).1.requests =
      pySlice offset limit (matchingRequests env st status owner requester obap) ∧
    (get_requests env st status limit offset owner requester obap).1.requests.length ≤
      limit - offset ∧
    (limit ≤ offset →
      (get_requests env st status limit offset owner requester obap).1.requests = []) ∧
    (get_requests env st status limit offset owner requester obap).2 =
      (matchingRequests env st status owner requester obap).length := by
  refine ⟨rfl, ?_, ?_, rfl⟩
  · show (pySlice offset limit
      (matchingRequests env st status owner requester obap)).length ≤ limit - offset
    unfold pySlice
    rw [List.length_drop, List.length_take]
    omega
  · intro h
    show pySlice offset limit
      (matchingRequests env st status owner requester obap) = []
    unfold pySlice
    apply List.drop_eq_nil_of_le
    exact le_trans (List.length_take_le _ _) h

/-- Witness for C10: with `limit = 1` and `offset = 3` the returned page is
empty even though a matching request exists. -/
theorem get_requests_pagination_witness :
    (get_requests witEnv witStore none 1 3 none none none).1.requests = [] :=
  (get_requests_pagination witEnv witStore none 1 3 none none none).2.2.1
    (by decide)

end Grouper
